import Mathlib

/-!
Verification of the warden-outbound-action pipeline core.

The definitions below are a shallow embedding of the Python sources:
  * `src/transformation.py` — `query_rules` (rule aggregation),
    `transform_message` (per-destination summary fan-out),
    `record_handler` (typed dispatch plus retry/poison policy);
  * `src/util/query.py` — `query_enabled_destinations`;
  * `src/model/base_summary.py` — `Entity`, `Rule`;
  * `src/model/destination_configuration.py` — `DestinationConfiguration`.
External collaborators (the SQL repository, pydantic parsing, the blinker
signal registry, the aws_lambda_powertools batch processor) appear as
function parameters or as definitions modelled from the specification.
-/

namespace Outbound

/-- Modelled from the spec: `SeverityLevel` is the ordinal enumeration
`0=informational … 4=critical` from `horangi.generated.severity_level`
(a dependency whose source is not in this repository).  `SeverityLevel(v)`
raises for a value outside the enumeration; `.name` yields the label.
We model the combination `SeverityLevel(v).name` as an `Option String`,
`none` standing for the raised `ValueError`. -/
def severityName : Nat → Option String
  | 0 => some "informational"
  | 1 => some "low"
  | 2 => some "medium"
  | 3 => some "high"
  | 4 => some "critical"
  | _ => none

/-- One row of the repository join in `query_rules`
(`src/transformation.py` lines 153–169): the columns the aggregation loop
reads.  `params_region` / `params_service` model `row._params.get("region")`
and `row._params.get("service")`. -/
structure Row where
  title : String
  default_severity : Nat
  severity : Nat
  resource_gid : Option String
  resource_region : String
  params_region : String
  params_service : String
  note : Option String
  tags : List String
  deriving Repr, DecidableEq, Inhabited

/-- `Entity` from `src/model/base_summary.py`. -/
structure Entity where
  is_service : Bool
  region : String
  service : String
  severity : String
  gid : Option String
  note : Option String
  deriving Repr, DecidableEq, Inhabited

/-- `Rule` from `src/model/base_summary.py`. -/
structure Rule where
  rule : String
  default_severity : String
  resources : List Entity
  tags : List String
  deriving Repr, DecidableEq, Inhabited

/-- The `Entity` built for a row (`src/transformation.py` lines 175–191):
a gid-bearing row yields a resource entity, a gid-less row a service
entity.  `sev` is the already-converted severity name. -/
def mkEntity (sev : String) (row : Row) : Entity :=
  match row.resource_gid with
  | some g =>
      { is_service := false
        region := row.resource_region
        service := row.params_service
        severity := sev
        gid := some g
        note := row.note }
  | none =>
      { is_service := true
        region := row.params_region
        service := row.params_service
        severity := sev
        gid := none
        note := row.note }

/-- Python `t.startswith(pre)`, phrased over the character list so the
kernel can evaluate it (the Lean `String.startsWith` is an `@[extern]`
primitive that does not kernel-reduce). -/
def strStartsWith (t pre : String) : Bool :=
  pre.data.isPrefixOf t.data

/-- The tag filtering in `query_rules` (lines 193–196): only
`compliance:`-prefixed tags survive. -/
def complianceTags (tags : List String) : List String :=
  tags.filter (fun t => strStartsWith t "compliance:")

/-- `rules.get(row.title)` on the insertion-ordered dict, modelled as an
association list. -/
def lookupRule : List (String × Rule) → String → Option Rule
  | [], _ => none
  | (k, v) :: rest, t => if k = t then some v else lookupRule rest t

/-- `aggregated.resources.append(resource)`: mutate the group stored under
`t` in place, keeping dict order. -/
def appendResource : List (String × Rule) → String → Entity → List (String × Rule)
  | [], _, _ => []
  | (k, v) :: rest, t, e =>
      if k = t then (k, { v with resources := v.resources ++ [e] }) :: rest
      else (k, v) :: appendResource rest t e

/-- The body of the `for row in rows` loop of `query_rules`
(`src/transformation.py` lines 173–210).  Any exception inside the `try`
(an out-of-range `row.severity`, or — only when a new group is created —
an out-of-range `row.default_severity`) is caught and the row skipped. -/
def step (rules : List (String × Rule)) (row : Row) : List (String × Rule) :=
  match severityName row.severity with
  | none => rules
  | some sev =>
      let resource := mkEntity sev row
      let tags := complianceTags row.tags
      match lookupRule rules row.title with
      | none =>
          match severityName row.default_severity with
          | none => rules
          | some dsev =>
              rules ++ [(row.title,
                { rule := row.title
                  default_severity := dsev
                  resources := [resource]
                  tags := tags })]
      | some _ => appendResource rules row.title resource

/-- The aggregation loop of `query_rules` followed by
`list(rules.values())`: fold the rows into the insertion-ordered dict and
return the groups in insertion order. -/
def aggregateRows (rows : List Row) : List Rule :=
  (rows.foldl step []).map Prod.snd

/-- The severity filter extraction at the top of `query_rules`
(lines 109–112): `severities` is taken from `filters` only when `filters`
is truthy and `filters.get("severities")` is truthy (a non-empty list);
otherwise `None`.  `Filters` models the `filters` dict restricted to its
only supported key. -/
structure Filters where
  severities : Option (List Nat)
  deriving Repr, DecidableEq, Inhabited

/-- `severities = filters.get("severities") if filters and
filters.get("severities") else None`. -/
def severitiesParam : Option Filters → Option (List Nat)
  | none => none
  | some f =>
      match f.severities with
      | none => none
      | some [] => none
      | some (s :: rest) => some (s :: rest)

/-- `query_rules` (`src/transformation.py` lines 91–212).  The repository
(the baked SQL queries, an external collaborator) is the parameter
`repo`, called with the extracted severity restriction; its rows are then
aggregated by the loop. -/
def query_rules (repo : Option (List Nat) → List Row)
    (filters : Option Filters) : List Rule :=
  aggregateRows (repo (severitiesParam filters))

/-- A row converts without an exception: both its severity and its default
severity are in the enumeration. -/
def rowValid (r : Row) : Bool :=
  (severityName r.severity).isSome && (severityName r.default_severity).isSome

/-- The entity a valid row produces (severity name defaulted, only taken
on valid severities). -/
def rowEntity (r : Row) : Entity :=
  mkEntity ((severityName r.severity).getD "") r

/-- Specification-side description of the output order: the distinct rule
titles in first-seen (row arrival) order. -/
def insertTitle (acc : List String) (r : Row) : List String :=
  if r.title ∈ acc then acc else acc ++ [r.title]

/-- The distinct rule titles of `rows` in first-seen (row arrival)
order. -/
def specTitles (rows : List Row) : List String :=
  rows.foldl insertTitle []

/-- Specification-side description of the group built for title `t`: the
first row bearing `t` supplies the default severity and the tags, and the
resources are the entities of all rows bearing `t`, in arrival order. -/
def specGroup (rows : List Row) (t : String) : Rule :=
  let trows := rows.filter (fun r => r.title == t)
  { rule := t
    default_severity :=
      (severityName (trows.headD default).default_severity).getD ""
    resources := trows.map rowEntity
    tags := complianceTags (trows.headD default).tags }

/-- The association list the dict holds after aggregating `rows`, phrased
from the specification. -/
def specAssoc (rows : List Row) : List (String × Rule) :=
  (specTitles rows).map (fun t => (t, specGroup rows t))

/-- Specification-side aggregation: one group per distinct title in
first-seen order. -/
def specAggregate (rows : List Row) : List Rule :=
  (specTitles rows).map (specGroup rows)

/-- Append one entity to the resource list of a group. -/
def addResource (g : Rule) (e : Entity) : Rule :=
  { g with resources := g.resources ++ [e] }

/-- Every entity held in the aggregation dict satisfies the
`is_service == (gid is absent)` invariant. -/
def assocEntitiesOk (A : List (String × Rule)) : Prop :=
  ∀ kg ∈ A, ∀ e ∈ kg.2.resources, e.is_service = e.gid.isNone

/-! ## Typed dispatch, retry policy and batch processing
(`src/transformation.py` lines 336–369, `src/sender.py` lines 87–120) -/

/-- The `(msg_type, version)` identity of a message
(`Message.parse_msg_type_id`). -/
abbrev MsgTypeId := String × String

/-- A receiver connected to a blinker signal.  `hid` identifies the
handler so invocations can be counted; `run` is the handler body, whose
`Except.error` models an uncaught exception. -/
structure Handler where
  hid : Nat
  run : String → Except String Unit

/-- Modelled from the spec: `blinker` `signal(...).send(detail)` (the
source of the blinker library is not in this repository) invokes each
connected receiver in order with the detail; an exception from a receiver
propagates,
aborting the remaining receivers.  Returns the ids of the receivers
invoked and the escaped exception, if any. -/
def sendSignal : List Handler → String → List Nat × Option String
  | [], _ => ([], none)
  | h :: rest, detail =>
      match h.run detail with
      | .ok _ =>
          let tail := sendSignal rest detail
          (h.hid :: tail.1, tail.2)
      | .error e => ([h.hid], some e)

/-- The fields of an SQS record that `record_handler` and the batch
processor read: `messageId`, `body`, and
`attributes.approximate_receive_count`. -/
structure RawRecord where
  messageId : String
  body : String
  approximate_receive_count : Nat
  deriving Repr, DecidableEq, Inhabited

/-- The `try`-block of `record_handler` (`src/transformation.py` lines
339–347, identical in `src/sender.py` lines 90–98): decode the body
(`json.loads`, `obj["detail"]`, `Message.parse_msg_type_id` — external
collaborators, modelled by the `decode` parameter, `.error` standing for
a raised decode exception), fetch the receivers of the signal for the parsed
identity, send when there is at least one, otherwise log
`"No receiver"` and fall through.  Returns the invoked handler ids and
the exception that escaped the block, if any. -/
def dispatchBody (decode : String → Except String (MsgTypeId × String))
    (registry : MsgTypeId → List Handler) (body : String) :
    List Nat × Option String :=
  match decode body with
  | .error e => ([], some e)
  | .ok (mid, detail) =>
      let receivers := registry mid
      if receivers.isEmpty then ([], none)
      else sendSignal receivers detail

/-- The default of `MAX_RECEIVE_COUNT`: `int(os.environ.get("MAX_RECEIVE_COUNT",
"3"))` with the variable unset. -/
def defaultMaxReceiveCount : Nat := 3

/-- `record_handler` (`src/transformation.py` lines 336–360, identical in
`src/sender.py` lines 87–111): run the `try`-block; on an exception,
return normally (record consumed, dropped) when
`approximate_receive_count >= MAX_RECEIVE_COUNT`, otherwise `raise`
(record reported failed, redelivered).  The second component of the result is
the outcome the batch processor observes. -/
def record_handler (maxReceiveCount : Nat)
    (decode : String → Except String (MsgTypeId × String))
    (registry : MsgTypeId → List Handler) (record : RawRecord) :
    List Nat × Except String Unit :=
  let r := dispatchBody decode registry record.body
  match r.2 with
  | none => (r.1, .ok ())
  | some e =>
      if record.approximate_receive_count ≥ maxReceiveCount then (r.1, .ok ())
      else (r.1, .error e)

/-- A record handler outcome counted as success. -/
def isOk : Except String Unit → Bool
  | .ok _ => true
  | .error _ => false

/-- Modelled from the spec: the aws_lambda_powertools `BatchProcessor`
with "report batch item failures" (`processor` and `handler`,
`src/transformation.py` lines 87 and 363–369; the source of the library is not
in this repository).  Records are attempted in the order received; an
exception from one record is caught there, so the remaining records still
run; `processor.response()` reports the failed records.  Returns
(`messageId`s succeeded, `messageId`s failed), each in batch order. -/
def processBatch (rh : RawRecord → Except String Unit) :
    List RawRecord → List String × List String
  | [] => ([], [])
  | r :: rest =>
      let tail := processBatch rh rest
      match rh r with
      | .ok _ => (r.messageId :: tail.1, tail.2)
      | .error _ => (tail.1, r.messageId :: tail.2)

/-- The lambda entry point `handler` assembled from the batch processor
and `record_handler`. -/
def lambdaHandler (maxReceiveCount : Nat)
    (decode : String → Except String (MsgTypeId × String))
    (registry : MsgTypeId → List Handler) (records : List RawRecord) :
    List String × List String :=
  processBatch
    (fun r => (record_handler maxReceiveCount decode registry r).2) records

/-! ## Destination resolution (`src/util/query.py`) -/

/-- Modelled from the spec: the `DestinationType` enumeration values from
`horangi.constants` (source not in this repository); only their
distinctness matters here. -/
def destinationTypeSlack : Nat := 1

/-- Modelled from the spec: `DestinationType.aws_sns.value`. -/
def destinationTypeAwsSns : Nat := 2

/-- Modelled from the spec: `DestinationType.pubsub.value`. -/
def destinationTypePubsub : Nat := 3

/-- `DestinationConfiguration` from
`src/model/destination_configuration.py`. -/
structure DestinationConfiguration where
  destination_uid : String
  is_enabled : Bool
  filters : Filters
  deriving Repr, DecidableEq, Inhabited

/-- The fields of the `Destination` store row that
`query_enabled_destinations` and `transform_message` read. -/
structure Destination where
  uid : String
  destination_type : Nat
  deriving Repr, DecidableEq, Inhabited

/-- The destination lookup in `query_enabled_destinations`
(`src/util/query.py` lines 44–52): `session.query(Destination)` filtered
by uid, and by `destination_type in kinds` only when `kinds` is
non-empty; `one_or_none()` yields the row when exactly one matches.
(Zero matches yield `None`; several raise `MultipleResultsFound`, which
the enclosing `except` turns into a skip of the entry, so that case is
also `none` here.)  `db` models the destination table. -/
def findDestination (db : List Destination) (uid : String)
    (kinds : List Nat) : Option Destination :=
  match db.filter
      (fun d => d.uid == uid &&
        (kinds.isEmpty || kinds.contains d.destination_type)) with
  | [d] => some d
  | _ => none

/-- The `for dc in destination_configurations` loop of
`query_enabled_destinations` (`src/util/query.py` lines 36–61).  Raw
configuration blocks are opaque (`β`); the pydantic
`DestinationConfiguration.parse_obj` is the `parse` parameter, `none`
modelling a validation error (caught: logged and the entry skipped).
Disabled entries are skipped; entries whose uid resolves to no matching
destination are skipped with a warning; a surviving entry is yielded
paired with its resolved destination. -/
def resolveConfigs {β : Type} (parse : β → Option DestinationConfiguration)
    (db : List Destination) (kinds : List Nat) :
    List β → List (DestinationConfiguration × Destination)
  | [] => []
  | dc :: rest =>
      let tail := resolveConfigs parse db kinds rest
      match parse dc with
      | none => tail
      | some config =>
          if !config.is_enabled then tail
          else
            match findDestination db config.destination_uid kinds with
            | none => tail
            | some destination => (config, destination) :: tail

/-- `query_enabled_destinations` (`src/util/query.py` lines 14–61):
`if not destination_configurations: return` handles both an absent
(`none`) and an empty configuration list, otherwise the loop above runs.
The generator is consumed into a list. -/
def query_enabled_destinations {β : Type}
    (parse : β → Option DestinationConfiguration) (db : List Destination)
    (destination_configurations : Option (List β)) (kinds : List Nat) :
    List (DestinationConfiguration × Destination) :=
  match destination_configurations with
  | none => []
  | some configs => resolveConfigs parse db kinds configs

/-! ## Summary fan-out (`transform_message`, `src/transformation.py`
lines 215–290) -/

/-- The per-destination loop of `transform_message`
(`src/transformation.py` lines 236–290).  The memoized aggregation
accumulator `aggregated` threads through the iterations; a destination is
processed by first querying the rules — only when the accumulator is still
`None` — with the `config.filters` of that destination, then building the
summary for an SNS or Pub/Sub destination (any other kind raises a
`ValueError`, caught by the per-destination `except`: the destination is
skipped, but the accumulator keeps its value).  `queryAgg` stands for
`query_rules action.org_uid task_uid` applied to the filters.  Returns
how many times `query_rules` ran and, per yielded message, the
destination uid and the rules list embedded in its summary. -/
def transformGo (queryAgg : Filters → List Rule) :
    Option (List Rule) → List (DestinationConfiguration × Destination) →
    Nat × List (String × List Rule)
  | _, [] => (0, [])
  | aggregated, (config, destination) :: rest =>
      let first : List Rule × Nat :=
        match aggregated with
        | none => (queryAgg config.filters, 1)
        | some a => (a, 0)
      let tail := transformGo queryAgg (some first.1) rest
      if destination.destination_type = destinationTypeAwsSns ∨
          destination.destination_type = destinationTypePubsub then
        (first.2 + tail.1, (destination.uid, first.1) :: tail.2)
      else
        (first.2 + tail.1, tail.2)

/-- `transform_message` restricted to what decides memoization: the
enumeration of resolved destinations (the `query_enabled_destinations`
output) is the input list, and the accumulator starts out `None`
(line 236: `aggregated: Optional[List[Rule]] = None`). -/
def transform_message (queryAgg : Filters → List Rule)
    (dests : List (DestinationConfiguration × Destination)) :
    Nat × List (String × List Rule) :=
  transformGo queryAgg none dests

/-! ## Concrete sample data (used to instantiate the theorems) -/

/-- A failed S3 check row with a resource gid and one compliance tag. -/
def exRow1 : Row :=
  { title := "S3 bucket public", default_severity := 3, severity := 2
    resource_gid := some "r1", resource_region := "us-east-1"
    params_region := "us-east-1", params_service := "s3"
    note := none, tags := ["compliance:pci", "storage"] }

/-- A second row under the same rule title, different resource, carrying a
compliance tag the first row does not have. -/
def exRow2 : Row :=
  { exRow1 with resource_gid := some "r2", tags := ["compliance:hipaa"] }

/-- A service-level row (no gid) under another rule title. -/
def exRow3 : Row :=
  { title := "IAM key rotation", default_severity := 1, severity := 4
    resource_gid := none, resource_region := ""
    params_region := "global", params_service := "iam"
    note := some "n", tags := [] }

/-- A row whose severity value is outside the enumeration. -/
def exRowBad : Row := { exRow1 with severity := 9 }

/-- A repository stub returning the three well-formed sample rows. -/
def exRepo : Option (List Nat) → List Row := fun _ => [exRow1, exRow2, exRow3]

/-- The first group the sample rows aggregate to. -/
def exGroupS3 : Rule :=
  { rule := "S3 bucket public", default_severity := "high"
    resources := [rowEntity exRow1, rowEntity exRow2]
    tags := ["compliance:pci"] }

/-- A decode stub that always raises. -/
def exDecodeErr : String → Except String (MsgTypeId × String) :=
  fun _ => .error "decode failed"

/-- An empty registry stub. -/
def exRegistryEmpty : MsgTypeId → List Handler := fun _ => []

/-- A record already delivered `MAX_RECEIVE_COUNT` times. -/
def exRecAtMax : RawRecord :=
  { messageId := "m1", body := "b1", approximate_receive_count := 3 }

/-- A record still below `MAX_RECEIVE_COUNT`. -/
def exRecBelow : RawRecord :=
  { messageId := "m2", body := "b2", approximate_receive_count := 2 }

/-- A handler whose body raises. -/
def exHandlerErr : Handler := ⟨7, fun _ => .error "handler failed"⟩

/-- A decode stub yielding the identity `("Foo", "1")` and the body as
detail. -/
def exDecodeFoo : String → Except String (MsgTypeId × String) :=
  fun b => .ok ((("Foo", "1") : MsgTypeId), b)

/-- A registry with exactly one handler, under `("Foo", "1")`. -/
def exRegistryFoo : MsgTypeId → List Handler :=
  fun mid => if mid = (("Foo", "1") : MsgTypeId) then [exHandlerErr] else []

/-- A resolvable SNS destination row. -/
def exDestSns : Destination := ⟨"d1", destinationTypeAwsSns⟩

/-- A Slack destination row (filtered out by kind in the samples). -/
def exDestSlack : Destination := ⟨"d2", destinationTypeSlack⟩

/-- A destination table with the two rows above. -/
def exDb : List Destination := [exDestSns, exDestSlack]

/-- A parse stub over pre-parsed blocks: `none` is a malformed block. -/
def exParse : Option DestinationConfiguration → Option DestinationConfiguration :=
  id

/-- An enabled configuration entry pointing at the SNS destination. -/
def exConfigEnabled : DestinationConfiguration :=
  ⟨"d1", true, ⟨some [2, 3]⟩⟩

/-- A disabled configuration entry pointing at the same destination. -/
def exConfigDisabled : DestinationConfiguration := ⟨"d1", false, ⟨none⟩⟩

/-- An enabled entry whose uid resolves to no destination. -/
def exConfigMissing : DestinationConfiguration := ⟨"nope", true, ⟨none⟩⟩

/-- A configuration list with an enabled entry, a disabled entry, a
malformed block and an entry with an unresolvable uid. -/
def exConfigs : List (Option DestinationConfiguration) :=
  [some exConfigEnabled, some exConfigDisabled, none, some exConfigMissing]

/-- An aggregation stub that answers only the severities `[2, 3]`. -/
def exQueryAgg : Filters → List Rule :=
  fun f => if f.severities = some [2, 3] then [exGroupS3] else []

/-- Two resolved destinations whose filter configurations differ. -/
def exDests : List (DestinationConfiguration × Destination) :=
  [(exConfigEnabled, exDestSns),
   (⟨"d2", true, ⟨none⟩⟩, ⟨"d2", destinationTypePubsub⟩)]

/-! ## Lemmas about the aggregation loop -/

lemma step_sev_none {rules : List (String × Rule)} {row : Row}
    (h : severityName row.severity = none) : step rules row = rules := by
  simp [step, h]

lemma step_new {rules : List (String × Rule)} {row : Row} {sev dsev : String}
    (hs : severityName row.severity = some sev)
    (hl : lookupRule rules row.title = none)
    (hd : severityName row.default_severity = some dsev) :
    step rules row =
      rules ++ [(row.title,
        { rule := row.title, default_severity := dsev,
          resources := [mkEntity sev row],
          tags := complianceTags row.tags })] := by
  simp [step, hs, hl, hd]

lemma step_new_dsev_none {rules : List (String × Rule)} {row : Row}
    {sev : String} (hs : severityName row.severity = some sev)
    (hl : lookupRule rules row.title = none)
    (hd : severityName row.default_severity = none) :
    step rules row = rules := by
  simp [step, hs, hl, hd]

lemma step_old {rules : List (String × Rule)} {row : Row} {sev : String}
    {g : Rule} (hs : severityName row.severity = some sev)
    (hl : lookupRule rules row.title = some g) :
    step rules row = appendResource rules row.title (mkEntity sev row) := by
  simp [step, hs, hl]

lemma mem_foldl_insertTitle (rows : List Row) (acc : List String)
    (t : String) :
    t ∈ rows.foldl insertTitle acc ↔ t ∈ acc ∨ ∃ r ∈ rows, r.title = t := by
  induction rows generalizing acc with
  | nil => simp
  | cons r rest ih =>
      simp only [List.foldl_cons, insertTitle]
      by_cases h : r.title ∈ acc
      · rw [if_pos h, ih]
        constructor
        · rintro (h1 | ⟨w, hw, hwt⟩)
          · exact Or.inl h1
          · exact Or.inr ⟨w, List.mem_cons_of_mem _ hw, hwt⟩
        · rintro (h1 | ⟨w, hw, hwt⟩)
          · exact Or.inl h1
          · rcases List.mem_cons.mp hw with hw1 | hw2
            · subst hw1; exact Or.inl (hwt ▸ h)
            · exact Or.inr ⟨w, hw2, hwt⟩
      · rw [if_neg h, ih]
        simp only [List.mem_append, List.mem_singleton,
          List.exists_mem_cons_iff]
        constructor
        · rintro (⟨h1 | h1⟩ | h2)
          · exact Or.inl h1
          · exact Or.inr (Or.inl h1.symm)
          · exact Or.inr (Or.inr h2)
        · rintro (h1 | h1 | h2)
          · exact Or.inl (Or.inl h1)
          · exact Or.inl (Or.inr h1.symm)
          · exact Or.inr h2

lemma mem_specTitles (rows : List Row) (t : String) :
    t ∈ specTitles rows ↔ ∃ r ∈ rows, r.title = t := by
  simpa [specTitles] using mem_foldl_insertTitle rows [] t

lemma nodup_foldl_insertTitle (rows : List Row) (acc : List String)
    (h : acc.Nodup) : (rows.foldl insertTitle acc).Nodup := by
  induction rows generalizing acc with
  | nil => simpa
  | cons r rest ih =>
      simp only [List.foldl_cons, insertTitle]
      by_cases hm : r.title ∈ acc
      · rw [if_pos hm]; exact ih _ h
      · rw [if_neg hm]
        refine ih _ ?_
        simp [List.nodup_append, h, hm]

lemma nodup_specTitles (rows : List Row) : (specTitles rows).Nodup :=
  nodup_foldl_insertTitle rows [] List.nodup_nil

lemma specTitles_snoc (p : List Row) (r : Row) :
    specTitles (p ++ [r]) =
      if r.title ∈ specTitles p then specTitles p
      else specTitles p ++ [r.title] := by
  simp [specTitles, List.foldl_append, insertTitle]

lemma lookupRule_map (l : List String) (g : String → Rule) (x : String) :
    lookupRule (l.map fun t => (t, g t)) x =
      if x ∈ l then some (g x) else none := by
  induction l with
  | nil => simp [lookupRule]
  | cons a as ih =>
      simp only [List.map_cons, lookupRule]
      by_cases h : a = x
      · subst h; simp
      · have h' : ¬ (x = a) := fun hh => h hh.symm
        rw [if_neg h, ih]
        simp [List.mem_cons, h']

lemma appendResource_map (l : List String) (g : String → Rule) (x : String)
    (e : Entity) (hnd : l.Nodup) :
    appendResource (l.map fun t => (t, g t)) x e =
      l.map fun t => (t, if t = x then addResource (g t) e else g t) := by
  induction l with
  | nil => simp [appendResource]
  | cons a as ih =>
      rcases List.nodup_cons.mp hnd with ⟨ha, has⟩
      simp only [List.map_cons, appendResource]
      by_cases h : a = x
      · subst h
        simp only [if_pos rfl]
        refine congrArg₂ List.cons rfl ?_
        refine List.map_congr_left (fun t ht => ?_)
        have : t ≠ a := fun he => ha (he ▸ ht)
        rw [if_neg this]
      · rw [if_neg h, ih has]
        rw [if_neg h]

lemma filter_title_eq_nil (p : List Row) (t : String)
    (h : t ∉ specTitles p) :
    p.filter (fun r => r.title == t) = [] := by
  rw [List.filter_eq_nil_iff]
  intro r hr hrt
  exact h ((mem_specTitles p t).mpr ⟨r, hr, by simpa using hrt⟩)

lemma filter_title_ne_nil (p : List Row) (t : String)
    (h : t ∈ specTitles p) :
    p.filter (fun r => r.title == t) ≠ [] := by
  obtain ⟨r, hr, ht⟩ := (mem_specTitles p t).mp h
  intro hc
  have hm : r ∈ p.filter (fun r => r.title == t) :=
    List.mem_filter.mpr ⟨hr, by simp [ht]⟩
  simp [hc] at hm

lemma specGroup_snoc_ne (p : List Row) (r : Row) (t : String)
    (h : r.title ≠ t) : specGroup (p ++ [r]) t = specGroup p t := by
  have hfr : List.filter (fun x => x.title == t) [r] = [] := by simp [h]
  simp only [specGroup, List.filter_append, hfr, List.append_nil]

lemma specGroup_snoc_eq_new (p : List Row) (r : Row)
    (h : r.title ∉ specTitles p) :
    specGroup (p ++ [r]) r.title =
      { rule := r.title
        default_severity := (severityName r.default_severity).getD ""
        resources := [rowEntity r]
        tags := complianceTags r.tags } := by
  have hfr : List.filter (fun x => x.title == r.title) [r] = [r] := by simp
  simp only [specGroup, List.filter_append, hfr, filter_title_eq_nil p _ h,
    List.nil_append, List.map_cons, List.map_nil, List.headD_cons]

lemma specGroup_snoc_eq_old (p : List Row) (r : Row)
    (h : r.title ∈ specTitles p) :
    specGroup (p ++ [r]) r.title =
      addResource (specGroup p r.title) (rowEntity r) := by
  have hne := filter_title_ne_nil p r.title h
  have hfr : List.filter (fun x => x.title == r.title) [r] = [r] := by simp
  simp only [specGroup, addResource, List.filter_append, hfr]
  cases hl : p.filter (fun x => x.title == r.title) with
  | nil => exact absurd hl hne
  | cons a as => simp

lemma step_specAssoc (p : List Row) (r : Row) (hr : rowValid r = true) :
    step (specAssoc p) r = specAssoc (p ++ [r]) := by
  obtain ⟨sev, hsev⟩ : ∃ s, severityName r.severity = some s := by
    rcases Bool.and_eq_true_iff.mp (by simpa [rowValid] using hr) with ⟨h1, _⟩
    exact Option.isSome_iff_exists.mp h1
  obtain ⟨dsev, hdsev⟩ : ∃ s, severityName r.default_severity = some s := by
    rcases Bool.and_eq_true_iff.mp (by simpa [rowValid] using hr) with ⟨_, h2⟩
    exact Option.isSome_iff_exists.mp h2
  have hre : rowEntity r = mkEntity sev r := by simp [rowEntity, hsev]
  by_cases hm : r.title ∈ specTitles p
  · have hlook : lookupRule (specAssoc p) r.title =
        some (specGroup p r.title) := by
      simp [specAssoc, lookupRule_map, hm]
    rw [step_old hsev hlook]
    show appendResource ((specTitles p).map fun t => (t, specGroup p t))
        r.title (mkEntity sev r) = specAssoc (p ++ [r])
    rw [appendResource_map _ _ _ _ (nodup_specTitles p)]
    show _ = (specTitles (p ++ [r])).map fun t => (t, specGroup (p ++ [r]) t)
    rw [specTitles_snoc, if_pos hm]
    refine List.map_congr_left (fun t ht => ?_)
    by_cases hteq : t = r.title
    · subst hteq
      rw [if_pos rfl, specGroup_snoc_eq_old p r hm, hre]
    · rw [if_neg hteq,
        specGroup_snoc_ne p r t (fun he => hteq he.symm)]
  · have hlook : lookupRule (specAssoc p) r.title = none := by
      simp [specAssoc, lookupRule_map, hm]
    rw [step_new hsev hlook hdsev]
    show ((specTitles p).map fun t => (t, specGroup p t)) ++ _ =
      (specTitles (p ++ [r])).map fun t => (t, specGroup (p ++ [r]) t)
    rw [specTitles_snoc, if_neg hm, List.map_append]
    refine congrArg₂ List.append ?_ ?_
    · refine List.map_congr_left (fun t ht => ?_)
      have hne : r.title ≠ t := fun he => hm (he ▸ ht)
      rw [specGroup_snoc_ne p r t hne]
    · simp only [List.map_cons, List.map_nil]
      rw [specGroup_snoc_eq_new p r hm]
      rw [hdsev, hre]
      simp

lemma foldl_step_specAssoc (rows : List Row) (p : List Row)
    (hv : ∀ r ∈ rows, rowValid r = true) :
    rows.foldl step (specAssoc p) = specAssoc (p ++ rows) := by
  induction rows generalizing p with
  | nil => simp
  | cons r rest ih =>
      simp only [List.foldl_cons]
      rw [step_specAssoc p r (hv r (List.mem_cons_self r rest))]
      rw [ih (p ++ [r]) (fun x hx => hv x (List.mem_cons_of_mem r hx))]
      simp

lemma aggregateRows_eq_specAggregate (rows : List Row)
    (hv : ∀ r ∈ rows, rowValid r = true) :
    aggregateRows rows = specAggregate rows := by
  have h := foldl_step_specAssoc rows [] hv
  have h0 : specAssoc ([] : List Row) = [] := rfl
  rw [h0, List.nil_append] at h
  unfold aggregateRows
  rw [h]
  simp [specAssoc, specAggregate, List.map_map, Function.comp]

/-! ## Lemmas for the entity invariant -/

lemma mkEntity_ok (sev : String) (row : Row) :
    (mkEntity sev row).is_service = (mkEntity sev row).gid.isNone := by
  cases h : row.resource_gid <;> simp [mkEntity, h]

lemma appendResource_ok {A : List (String × Rule)} {t : String} {e : Entity}
    (hA : assocEntitiesOk A) (he : e.is_service = e.gid.isNone) :
    assocEntitiesOk (appendResource A t e) := by
  induction A with
  | nil => simp [appendResource, assocEntitiesOk]
  | cons a as ih =>
      obtain ⟨k, v⟩ := a
      have hAs : assocEntitiesOk as := fun kg h => hA kg (List.mem_cons_of_mem _ h)
      have hv : ∀ x ∈ v.resources, x.is_service = x.gid.isNone :=
        fun x hx => hA (k, v) (List.mem_cons_self _ _) x hx
      intro kg hkg x hx
      by_cases hk : k = t
      · simp only [appendResource, if_pos hk] at hkg
        rcases List.mem_cons.mp hkg with h1 | h2
        · subst h1
          rcases List.mem_append.mp hx with h3 | h3
          · exact hv x h3
          · rw [List.mem_singleton.mp h3]; exact he
        · exact hAs kg h2 x hx
      · simp only [appendResource, if_neg hk] at hkg
        rcases List.mem_cons.mp hkg with h1 | h2
        · subst h1; exact hv x hx
        · exact ih hAs kg h2 x hx

lemma step_ok {A : List (String × Rule)} (r : Row)
    (hA : assocEntitiesOk A) : assocEntitiesOk (step A r) := by
  cases hs : severityName r.severity with
  | none => rw [step_sev_none hs]; exact hA
  | some sev =>
      cases hl : lookupRule A r.title with
      | none =>
          cases hd : severityName r.default_severity with
          | none => rw [step_new_dsev_none hs hl hd]; exact hA
          | some dsev =>
              rw [step_new hs hl hd]
              intro kg hkg x hx
              rcases List.mem_append.mp hkg with h1 | h1
              · exact hA kg h1 x hx
              · rw [List.mem_singleton.mp h1] at hx
                simp only [List.mem_singleton] at hx
                rw [hx]; exact mkEntity_ok sev r
      | some g =>
          rw [step_old hs hl]
          exact appendResource_ok hA (mkEntity_ok sev r)

lemma foldl_step_ok (rows : List Row) (A : List (String × Rule))
    (hA : assocEntitiesOk A) : assocEntitiesOk (rows.foldl step A) := by
  induction rows generalizing A with
  | nil => simpa
  | cons r rest ih => exact ih _ (step_ok r hA)

/-! ## Lemmas for dispatch and batch processing -/

lemma sendSignal_singleton (h : Handler) (detail : String) :
    sendSignal [h] detail =
      ([h.hid], match h.run detail with | .ok _ => none | .error e => some e) := by
  cases hr : h.run detail <;> simp [sendSignal, hr]

lemma processBatch_partition (rh : RawRecord → Except String Unit)
    (records : List RawRecord) :
    (processBatch rh records).1 =
      (records.filter (fun r => isOk (rh r))).map RawRecord.messageId ∧
    (processBatch rh records).2 =
      (records.filter (fun r => !isOk (rh r))).map RawRecord.messageId := by
  induction records with
  | nil => exact ⟨rfl, rfl⟩
  | cons r rest ih =>
      cases hr : rh r with
      | ok u => simp [processBatch, hr, List.filter_cons, isOk, ih.1, ih.2]
      | error e => simp [processBatch, hr, List.filter_cons, isOk, ih.1, ih.2]

/-! ## Lemmas for destination resolution -/

lemma filter_singleton_pred {α : Type} (l : List α) (p : α → Bool) (d : α)
    (h : l.filter p = [d]) : p d = true := by
  have hd : d ∈ l.filter p := by rw [h]; exact List.mem_singleton_self d
  exact (List.mem_filter.mp hd).2

lemma findDestination_spec (db : List Destination) (uid : String)
    (kinds : List Nat) (d : Destination)
    (h : findDestination db uid kinds = some d) :
    d.uid = uid ∧ (kinds = [] ∨ d.destination_type ∈ kinds) := by
  unfold findDestination at h
  cases hl : db.filter
      (fun d => d.uid == uid &&
        (kinds.isEmpty || kinds.contains d.destination_type)) with
  | nil => rw [hl] at h; simp at h
  | cons a as =>
      cases as with
      | nil =>
          rw [hl] at h
          simp only [Option.some.injEq] at h
          subst h
          have hp := filter_singleton_pred db _ a hl
          rcases Bool.and_eq_true_iff.mp hp with ⟨h1, h2⟩
          refine ⟨by simpa using h1, ?_⟩
          rcases Bool.or_eq_true_iff.mp h2 with h3 | h3
          · left; simpa [List.isEmpty_iff] using h3
          · right; simpa using h3
      | cons b bs => rw [hl] at h; simp at h

/-- The yield condition of the resolver loop, as an `Option`-valued
entry-level function. -/
lemma resolveConfigs_eq_filterMap {β : Type}
    (parse : β → Option DestinationConfiguration) (db : List Destination)
    (kinds : List Nat) (configs : List β) :
    resolveConfigs parse db kinds configs =
      configs.filterMap (fun dc =>
        (parse dc).bind (fun c =>
          if c.is_enabled then
            (findDestination db c.destination_uid kinds).map (fun d => (c, d))
          else none)) := by
  induction configs with
  | nil => rfl
  | cons dc rest ih =>
      simp only [resolveConfigs, List.filterMap_cons]
      cases hp : parse dc with
      | none => simpa using ih
      | some c =>
          cases he : c.is_enabled with
          | false => simpa [he] using ih
          | true =>
              cases hd : findDestination db c.destination_uid kinds with
              | none => simpa [he, hd] using ih
              | some dst => simp [he, hd, ih]

lemma mem_resolveConfigs {β : Type}
    (parse : β → Option DestinationConfiguration) (db : List Destination)
    (kinds : List Nat) (configs : List β)
    (cd : DestinationConfiguration × Destination)
    (h : cd ∈ resolveConfigs parse db kinds configs) :
    cd.1.is_enabled = true ∧ cd.2.uid = cd.1.destination_uid ∧
      (kinds = [] ∨ cd.2.destination_type ∈ kinds) := by
  rw [resolveConfigs_eq_filterMap] at h
  obtain ⟨dc, _, hdc⟩ := List.mem_filterMap.mp h
  cases hp : parse dc with
  | none => rw [hp] at hdc; simp at hdc
  | some c =>
      rw [hp] at hdc
      simp only [Option.some_bind] at hdc
      cases he : c.is_enabled with
      | false => rw [he] at hdc; simp at hdc
      | true =>
          simp only [he, if_true] at hdc
          cases hd : findDestination db c.destination_uid kinds with
          | none => rw [hd] at hdc; simp at hdc
          | some dst =>
              rw [hd] at hdc
              have hcd : (c, dst) = cd := by simpa using hdc
              subst hcd
              have hspec := findDestination_spec db c.destination_uid kinds dst hd
              exact ⟨he, hspec.1, hspec.2⟩

/-! ## Lemmas for the summary fan-out -/

lemma transformGo_some (queryAgg : Filters → List Rule) (a : List Rule)
    (l : List (DestinationConfiguration × Destination)) :
    (transformGo queryAgg (some a) l).1 = 0 ∧
      ∀ p ∈ (transformGo queryAgg (some a) l).2, p.2 = a := by
  induction l with
  | nil => simp [transformGo]
  | cons cd rest ih =>
      obtain ⟨c, d⟩ := cd
      by_cases ht : d.destination_type = destinationTypeAwsSns ∨
          d.destination_type = destinationTypePubsub
      · simp only [transformGo, if_pos ht]
        refine ⟨by simpa using ih.1, ?_⟩
        intro p hp
        rcases List.mem_cons.mp hp with h1 | h2
        · rw [h1]
        · exact ih.2 p h2
      · simp only [transformGo, if_neg ht]
        exact ⟨by simpa using ih.1, fun p hp => ih.2 p hp⟩

lemma transform_message_cons (queryAgg : Filters → List Rule)
    (c : DestinationConfiguration) (d : Destination)
    (rest : List (DestinationConfiguration × Destination)) :
    (transform_message queryAgg ((c, d) :: rest)).1 = 1 ∧
      ∀ p ∈ (transform_message queryAgg ((c, d) :: rest)).2,
        p.2 = queryAgg c.filters := by
  have hgo := transformGo_some queryAgg (queryAgg c.filters) rest
  by_cases ht : d.destination_type = destinationTypeAwsSns ∨
      d.destination_type = destinationTypePubsub
  · constructor
    · simp only [transform_message, transformGo, if_pos ht]
      simp [hgo.1]
    · intro p hp
      simp only [transform_message, transformGo, if_pos ht] at hp
      rcases List.mem_cons.mp hp with h1 | h2
      · rw [h1]
      · exact hgo.2 p h2
  · constructor
    · simp only [transform_message, transformGo, if_neg ht]
      simp [hgo.1]
    · intro p hp
      simp only [transform_message, transformGo, if_neg ht] at hp
      exact hgo.2 p hp

/-! ## Claim theorems -/

/-- C1: for every sequence of repository rows (each of which converts
without an exception), `query_rules` returns exactly one group per
distinct rule title in first-seen (insertion) order, and each group holds
one entity per row bearing its title, appended in row arrival order with
no deduplication of resources — precisely the shape `specAggregate`
prescribes. -/
theorem query_rules_groups_by_title (repo : Option (List Nat) → List Row)
    (filters : Option Filters)
    (hv : ∀ r ∈ repo (severitiesParam filters), rowValid r = true) :
    query_rules repo filters = specAggregate (repo (severitiesParam filters)) ∧
    (query_rules repo filters).map Rule.rule =
      specTitles (repo (severitiesParam filters)) ∧
    ((query_rules repo filters).map Rule.rule).Nodup ∧
    ∀ g ∈ query_rules repo filters,
      g.resources = ((repo (severitiesParam filters)).filter
        (fun r => r.title == g.rule)).map rowEntity := by
  have h : query_rules repo filters =
      specAggregate (repo (severitiesParam filters)) :=
    aggregateRows_eq_specAggregate _ hv
  have hrule : (specAggregate (repo (severitiesParam filters))).map Rule.rule
      = specTitles (repo (severitiesParam filters)) := by
    unfold specAggregate
    rw [List.map_map]
    have he : (Rule.rule ∘ specGroup (repo (severitiesParam filters))) = id :=
      funext (fun t => rfl)
    rw [he, List.map_id]
  refine ⟨h, ?_, ?_, ?_⟩
  · rw [h, hrule]
  · rw [h, hrule]; exact nodup_specTitles _
  · intro g hg
    rw [h] at hg
    obtain ⟨t, ht, rfl⟩ := List.mem_map.mp hg
    rfl

/-- Witness for C1 at the sample repository. -/
theorem query_rules_groups_by_title_witness :
    (∀ r ∈ exRepo (severitiesParam none), rowValid r = true) ∧
    (query_rules exRepo none = specAggregate (exRepo (severitiesParam none)) ∧
     (query_rules exRepo none).map Rule.rule =
       specTitles (exRepo (severitiesParam none)) ∧
     ((query_rules exRepo none).map Rule.rule).Nodup ∧
     ∀ g ∈ query_rules exRepo none,
       g.resources = ((exRepo (severitiesParam none)).filter
         (fun r => r.title == g.rule)).map rowEntity) :=
  ⟨by decide, query_rules_groups_by_title exRepo none (by decide)⟩

/-- C2: when the try-block of `record_handler` raises, the record is
reported successful (dropped) when its approximate receive count has
reached the maximum, and the exception propagates (record reported
failed, redelivered) when the count is below the maximum. -/
theorem record_handler_retry_policy (maxR : Nat)
    (decode : String → Except String (MsgTypeId × String))
    (registry : MsgTypeId → List Handler) (record : RawRecord) (e : String)
    (herr : (dispatchBody decode registry record.body).2 = some e) :
    (record.approximate_receive_count ≥ maxR →
      (record_handler maxR decode registry record).2 = .ok ()) ∧
    (record.approximate_receive_count < maxR →
      (record_handler maxR decode registry record).2 = .error e) := by
  refine ⟨fun h => ?_, fun h => ?_⟩
  · simp [record_handler, herr, h]
  · simp [record_handler, herr, Nat.not_le.mpr h]

/-- Witness for C2: a failing record at the default maximum receive count
is dropped, one below it propagates the exception. -/
theorem record_handler_retry_policy_witness :
    (dispatchBody exDecodeErr exRegistryEmpty exRecAtMax.body).2 =
      some "decode failed" ∧
    (dispatchBody exDecodeErr exRegistryEmpty exRecBelow.body).2 =
      some "decode failed" ∧
    (record_handler defaultMaxReceiveCount exDecodeErr exRegistryEmpty
      exRecAtMax).2 = .ok () ∧
    (record_handler defaultMaxReceiveCount exDecodeErr exRegistryEmpty
      exRecBelow).2 = .error "decode failed" :=
  ⟨rfl, rfl,
   (record_handler_retry_policy defaultMaxReceiveCount exDecodeErr
     exRegistryEmpty exRecAtMax "decode failed" rfl).1 (by decide),
   (record_handler_retry_policy defaultMaxReceiveCount exDecodeErr
     exRegistryEmpty exRecBelow "decode failed" rfl).2 (by decide)⟩

/-- C3: the batch processor attempts every record in the order received
and partitions the batch by per-record outcome: the reported failures are
exactly the records whose handler raised, the successes exactly the
others, both in batch order — so one failure never prevents the
processing of later records. -/
theorem batch_fault_isolation (rh : RawRecord → Except String Unit)
    (records : List RawRecord) :
    (processBatch rh records).1 =
      (records.filter (fun r => isOk (rh r))).map RawRecord.messageId ∧
    (processBatch rh records).2 =
      (records.filter (fun r => !isOk (rh r))).map RawRecord.messageId :=
  processBatch_partition rh records

/-- C4: a decoded record whose identity has no registered handler is
dropped without an error (the record succeeds); an identity with exactly
one registered handler has it invoked exactly once, and an exception the
handler raises escapes the dispatch into the failure path of the batch
dispatcher (reported failed whenever the receive count is below the
maximum). -/
theorem dispatch_routing (maxR : Nat)
    (decode : String → Except String (MsgTypeId × String))
    (registry : MsgTypeId → List Handler) (record : RawRecord)
    (mid : MsgTypeId) (detail : String)
    (hdec : decode record.body = .ok (mid, detail)) :
    (registry mid = [] →
      record_handler maxR decode registry record = ([], .ok ())) ∧
    (∀ h : Handler, registry mid = [h] →
      (dispatchBody decode registry record.body).1 = [h.hid] ∧
      (h.run detail = .ok () →
        (dispatchBody decode registry record.body).2 = none) ∧
      (∀ e, h.run detail = .error e →
        (dispatchBody decode registry record.body).2 = some e) ∧
      (∀ e, h.run detail = .error e →
        record.approximate_receive_count < maxR →
        (record_handler maxR decode registry record).2 = .error e)) := by
  constructor
  · intro hreg
    simp [record_handler, dispatchBody, hdec, hreg]
  · intro h hreg
    have hsend := sendSignal_singleton h detail
    refine ⟨?_, ?_, ?_, ?_⟩
    · simp [dispatchBody, hdec, hreg, hsend]
    · intro hok; simp [dispatchBody, hdec, hreg, hsend, hok]
    · intro e herr; simp [dispatchBody, hdec, hreg, hsend, herr]
    · intro e herr hcnt
      have hd : (dispatchBody decode registry record.body).2 = some e := by
        simp [dispatchBody, hdec, hreg, hsend, herr]
      simp [record_handler, hd, Nat.not_le.mpr hcnt]

/-- Witness for C4: an unroutable identity succeeds; the single
registered handler is invoked exactly once and its exception escapes. -/
theorem dispatch_routing_witness :
    exDecodeFoo exRecBelow.body =
      .ok ((("Foo", "1") : MsgTypeId), exRecBelow.body) ∧
    record_handler defaultMaxReceiveCount exDecodeFoo exRegistryEmpty
      exRecBelow = ([], .ok ()) ∧
    (dispatchBody exDecodeFoo exRegistryFoo exRecBelow.body).1 =
      [exHandlerErr.hid] ∧
    (dispatchBody exDecodeFoo exRegistryFoo exRecBelow.body).2 =
      some "handler failed" :=
  ⟨rfl,
   (dispatch_routing defaultMaxReceiveCount exDecodeFoo exRegistryEmpty
     exRecBelow ("Foo", "1") exRecBelow.body rfl).1 rfl,
   ((dispatch_routing defaultMaxReceiveCount exDecodeFoo exRegistryFoo
     exRecBelow ("Foo", "1") exRecBelow.body rfl).2 exHandlerErr rfl).1,
   ((dispatch_routing defaultMaxReceiveCount exDecodeFoo exRegistryFoo
     exRecBelow ("Foo", "1") exRecBelow.body rfl).2 exHandlerErr
     rfl).2.2.1 "handler failed" rfl⟩

/-- C5: every entity produced by the aggregation engine satisfies
`is_service == (gid is absent)`; in particular `(is_service = false,
gid = none)` is never produced. -/
theorem entity_invariant (repo : Option (List Nat) → List Row)
    (filters : Option Filters) (g : Rule)
    (hg : g ∈ query_rules repo filters) (e : Entity)
    (he : e ∈ g.resources) : e.is_service = e.gid.isNone := by
  have hfold : assocEntitiesOk
      ((repo (severitiesParam filters)).foldl step []) :=
    foldl_step_ok _ [] (by intro kg hkg; simp at hkg)
  have hg' : g ∈ ((repo (severitiesParam filters)).foldl step []).map
      Prod.snd := hg
  obtain ⟨kg, hkg, rfl⟩ := List.mem_map.mp hg'
  exact hfold kg hkg e he

/-- Witness for C5 at the sample repository. -/
theorem entity_invariant_witness :
    exGroupS3 ∈ query_rules exRepo none ∧
    rowEntity exRow1 ∈ exGroupS3.resources ∧
    (rowEntity exRow1).is_service = (rowEntity exRow1).gid.isNone :=
  ⟨by decide, by decide,
   entity_invariant exRepo none exGroupS3 (by decide)
     (rowEntity exRow1) (by decide)⟩

/-- C6: a non-empty severities list in `filters` is passed to the
repository exactly as given; an absent `filters`, a `filters` without
severities, and an empty severities list all pass `None` (no severity
restriction). -/
theorem severity_filter_parameterization
    (repo : Option (List Nat) → List Row) :
    (∀ (s : Nat) (rest : List Nat),
      severitiesParam (some ⟨some (s :: rest)⟩) = some (s :: rest) ∧
      query_rules repo (some ⟨some (s :: rest)⟩) =
        aggregateRows (repo (some (s :: rest)))) ∧
    severitiesParam none = none ∧
    severitiesParam (some ⟨none⟩) = none ∧
    severitiesParam (some ⟨some []⟩) = none ∧
    query_rules repo none = aggregateRows (repo none) ∧
    query_rules repo (some ⟨none⟩) = aggregateRows (repo none) ∧
    query_rules repo (some ⟨some []⟩) = aggregateRows (repo none) :=
  ⟨fun _ _ => ⟨rfl, rfl⟩, rfl, rfl, rfl, rfl, rfl, rfl⟩

/-- C7: a row whose severity value raises is skipped and every other row
is still aggregated, wherever in the sequence the bad row sits. -/
theorem bad_row_skipped (pre post : List Row) (bad : Row)
    (h : severityName bad.severity = none) :
    aggregateRows (pre ++ bad :: post) = aggregateRows (pre ++ post) := by
  unfold aggregateRows
  rw [List.foldl_append, List.foldl_cons, step_sev_none h,
    ← List.foldl_append]

/-- Witness for C7: the sample bad row (severity 9) is dropped without
affecting its siblings. -/
theorem bad_row_skipped_witness :
    severityName exRowBad.severity = none ∧
    aggregateRows ([exRow1] ++ exRowBad :: [exRow2, exRow3]) =
      aggregateRows ([exRow1] ++ [exRow2, exRow3]) :=
  ⟨by decide,
   bad_row_skipped [exRow1] [exRow2, exRow3] exRowBad (by decide)⟩

/-- C8: the destination resolver yields, in configuration order, exactly
the entries that parse, are enabled and resolve to a destination matching
the requested kinds (empty kind list matching any kind); disabled entries
never appear; malformed entries are skipped without aborting the rest;
an absent or empty configuration list yields nothing. -/
theorem destination_resolution {β : Type}
    (parse : β → Option DestinationConfiguration) (db : List Destination)
    (kinds : List Nat) :
    (∀ configs : List β,
      query_enabled_destinations parse db (some configs) kinds =
        configs.filterMap (fun dc =>
          (parse dc).bind (fun c =>
            if c.is_enabled then
              (findDestination db c.destination_uid kinds).map
                (fun d => (c, d))
            else none))) ∧
    (∀ (configs : List β) cd,
      cd ∈ query_enabled_destinations parse db (some configs) kinds →
        cd.1.is_enabled = true ∧ cd.2.uid = cd.1.destination_uid ∧
          (kinds = [] ∨ cd.2.destination_type ∈ kinds)) ∧
    query_enabled_destinations parse db none kinds = [] ∧
    query_enabled_destinations parse db (some ([] : List β)) kinds = [] ∧
    (∀ (pre post : List β) (bad : β), parse bad = none →
      resolveConfigs parse db kinds (pre ++ bad :: post) =
        resolveConfigs parse db kinds (pre ++ post)) := by
  refine ⟨?_, ?_, rfl, rfl, ?_⟩
  · intro configs; exact resolveConfigs_eq_filterMap parse db kinds configs
  · intro configs cd h; exact mem_resolveConfigs parse db kinds configs cd h
  · intro pre post bad hbad
    rw [resolveConfigs_eq_filterMap, resolveConfigs_eq_filterMap]
    simp [List.filterMap_append, List.filterMap_cons, hbad]

/-- Witness for C8 at the sample configuration list. -/
theorem destination_resolution_witness :
    (exConfigEnabled, exDestSns) ∈ query_enabled_destinations exParse exDb
      (some exConfigs) [destinationTypeAwsSns] ∧
    (exConfigEnabled.is_enabled = true ∧
      exDestSns.uid = exConfigEnabled.destination_uid ∧
      (([destinationTypeAwsSns] : List Nat) = [] ∨
        exDestSns.destination_type ∈ [destinationTypeAwsSns])) ∧
    exParse none = none ∧
    resolveConfigs exParse exDb [destinationTypeAwsSns]
        ([some exConfigEnabled] ++ none :: [some exConfigMissing]) =
      resolveConfigs exParse exDb [destinationTypeAwsSns]
        ([some exConfigEnabled] ++ [some exConfigMissing]) :=
  ⟨by decide,
   (destination_resolution exParse exDb [destinationTypeAwsSns]).2.1
     exConfigs (exConfigEnabled, exDestSns) (by decide),
   rfl,
   (destination_resolution exParse exDb [destinationTypeAwsSns]).2.2.2.2
     [some exConfigEnabled] [some exConfigMissing] none rfl⟩

/-- C9: `transform_message` invokes the aggregation engine at most once
per incoming message — exactly once when at least one destination is
resolved, with the filter configuration of the first one — and every
emitted summary reuses that single aggregated rules list. -/
theorem transform_message_memoizes (queryAgg : Filters → List Rule)
    (dests : List (DestinationConfiguration × Destination)) :
    (transform_message queryAgg dests).1 ≤ 1 ∧
    transform_message queryAgg [] = (0, []) ∧
    ∀ c d rest, dests = (c, d) :: rest →
      (transform_message queryAgg dests).1 = 1 ∧
      ∀ p ∈ (transform_message queryAgg dests).2,
        p.2 = queryAgg c.filters := by
  refine ⟨?_, rfl, ?_⟩
  · cases dests with
    | nil => simp [transform_message, transformGo]
    | cons cd rest =>
        obtain ⟨c, d⟩ := cd
        rw [(transform_message_cons queryAgg c d rest).1]
  · intro c d rest hd
    subst hd
    exact transform_message_cons queryAgg c d rest

/-- Witness for C9: with two resolved destinations whose filters differ,
the engine runs once and the second summary reuses the list aggregated
under the filters of the first. -/
theorem transform_message_memoizes_witness :
    (transform_message exQueryAgg exDests).1 = 1 ∧
    (("d2", [exGroupS3]) : String × List Rule) ∈
      (transform_message exQueryAgg exDests).2 ∧
    (("d2", [exGroupS3]) : String × List Rule).2 =
      exQueryAgg exConfigEnabled.filters :=
  ⟨((transform_message_memoizes exQueryAgg exDests).2.2 exConfigEnabled
     exDestSns _ rfl).1,
   by decide,
   ((transform_message_memoizes exQueryAgg exDests).2.2 exConfigEnabled
     exDestSns _ rfl).2 _ (by decide)⟩

/-- C10: the tags of a produced group are exactly the
`compliance:`-prefixed tags of the first row bearing its title; the tags
of every later row with the same title are discarded. -/
theorem group_tags_from_first_row (repo : Option (List Nat) → List Row)
    (filters : Option Filters)
    (hv : ∀ r ∈ repo (severitiesParam filters), rowValid r = true) :
    ∀ g ∈ query_rules repo filters,
      g.tags = complianceTags
        (((repo (severitiesParam filters)).filter
            (fun r => r.title == g.rule)).headD default).tags := by
  intro g hg
  have h : query_rules repo filters =
      specAggregate (repo (severitiesParam filters)) :=
    aggregateRows_eq_specAggregate _ hv
  rw [h] at hg
  obtain ⟨t, ht, rfl⟩ := List.mem_map.mp hg
  rfl

/-- Witness for C10: the second S3 row carries `compliance:hipaa`, yet
the group keeps only the compliance tags of the first row. -/
theorem group_tags_from_first_row_witness :
    (∀ r ∈ exRepo (severitiesParam none), rowValid r = true) ∧
    exGroupS3 ∈ query_rules exRepo none ∧
    exGroupS3.tags = complianceTags
      (((exRepo (severitiesParam none)).filter
          (fun r => r.title == exGroupS3.rule)).headD default).tags :=
  ⟨by decide, by decide,
   group_tags_from_first_row exRepo none (by decide) exGroupS3 (by decide)⟩

end Outbound
